import Mathlib

set_option maxRecDepth 2000

/-
Verification of the AI news curation backend (feed scraping, recency
filtering, industry classification, dedup-insert persistence and the
curation orchestrator) against its natural-language specification.

The Python modules under backend/ are shallowly embedded:
machine timestamps become integers (seconds since the epoch), the SQL
store becomes a list of rows, exceptions become Except / Option values,
and the outcome of the external LLM classification call becomes an
explicit input of the classifier adapter.
-/

namespace NewsAgent

/-! ## Time model

A Python `datetime` is a wall-clock reading together with an optional
timezone offset (`tzinfo`).  `wall` is the naive reading in seconds since
the epoch; an aware datetime with offset `off` denotes the UTC instant
`wall - off`.  `d.replace(tzinfo=utc)` re-reads a naive wall clock as UTC. -/
structure PyDateTime where
  wall : Int
  tz : Option Int
deriving DecidableEq, Repr

/-- The UTC instant denoted by a datetime; a naive value is read as if its
wall clock were UTC, which is what `replace(tzinfo=dt.timezone.utc)` does. -/
def PyDateTime.toUtcEpoch (d : PyDateTime) : Int :=
  match d.tz with
  | some off => d.wall - off
  | none => d.wall

/-! ## Recency filter (scraper.py `_within_last_hours`)

The Python function samples `now = dt.datetime.now(dt.timezone.utc)`
inside its own body; the embedding therefore takes the sampled `now` as an
argument, and the run-level wrapper below feeds one clock sample per call,
exactly as the list comprehension in `fetch_latest_articles` does. -/
def within_last_hours (now : Int) (dt_value : Option PyDateTime) (hours : Int) : Bool :=
  match dt_value with
  | none => false
  | some d => decide (now - d.toUtcEpoch ≤ hours * 3600)

/-- The per-source filtering loop
`[a for a in parsed if _within_last_hours(a.published_at, hours)]`:
each evaluation of `_within_last_hours` takes its own clock sample, so the
loop consumes a stream of (monotone, in a real run) clock readings, one
per article. -/
def filter_with_clocks (hours : Int) : List (Int × Option PyDateTime) → List (Option PyDateTime)
  | [] => []
  | (now, a) :: rest =>
      if within_last_hours now a hours then a :: filter_with_clocks hours rest
      else filter_with_clocks hours rest

/-- Spec-side recency filter, from the spec's words: a single `now`
evaluated once per run start, retain iff `published_at` is present and
`now - published_at ≤ window` (inclusive). -/
def spec_recency_filter (now0 : Int) (hours : Int) (arts : List (Option PyDateTime)) :
    List (Option PyDateTime) :=
  arts.filter fun a =>
    match a with
    | none => false
    | some d => decide (now0 - d.toUtcEpoch ≤ hours * 3600)

/-! ## String primitives

Python's string methods, embedded structurally over character lists so
that every definition evaluates by kernel reduction. -/

/-- Python's `str.lower()` — character-wise lowercasing. -/
def strLower (s : String) : String :=
  ⟨s.toList.map Char.toLower⟩

/-- Python's `str.strip()` — drop whitespace from both ends. -/
def strTrim (s : String) : String :=
  ⟨((s.toList.dropWhile Char.isWhitespace).reverse.dropWhile Char.isWhitespace).reverse⟩

/-- Python's character slicing `s[:n]`. -/
def strTake (s : String) (n : Nat) : String :=
  ⟨s.toList.take n⟩

/-! ## Feed parser (scraper.py `_parse_rss`)

The XML library is an external collaborator: its output — the list of
`<item>` elements, each with optional title / link / description /
pubDate text — is the input of the embedded parser.  A malformed or empty
document is one in which `find_all("item")` finds nothing, i.e. the empty
item list.  `parsedate_to_datetime` is likewise external and fallible; it
is passed in as `pd : String → Option PyDateTime`, `none` standing for the
exception that the Python code catches (`except Exception: pub = None`). -/
structure RssItem where
  titleText : Option String
  linkText : Option String
  descText : Option String
  pubDateText : Option String
deriving DecidableEq, Repr

/-- A Candidate Article as produced by the parser. -/
structure Candidate where
  title : String
  url : String
  summary : Option String
  published_at : Option PyDateTime
  source : String
  source_name : String
deriving DecidableEq, Repr

/-- Tag stripping, modelling `BeautifulSoup(desc, "html.parser").get_text()`:
drop every span between `<` and `>`. -/
def stripTagChars : List Char → Bool → List Char
  | [], _ => []
  | c :: t, true => if c = '>' then stripTagChars t false else stripTagChars t true
  | c :: t, false => if c = '<' then stripTagChars t true else c :: stripTagChars t false

def get_text (s : String) : String :=
  ⟨stripTagChars s.toList false⟩

/-- The body of the `for it in items` loop of `_parse_rss`. -/
def itemToCandidate (pd : String → Option PyDateTime) (source_key source_name : String)
    (it : RssItem) : Candidate :=
  { title := strTrim (it.titleText.getD "")
    url := strTrim (it.linkText.getD "")
    summary :=
      if strTrim (get_text (it.descText.getD "")) = "" then none
      else some (strTrim (get_text (it.descText.getD "")))
    published_at :=
      match it.pubDateText with
      | some d => pd d
      | none => none
    source := source_key
    source_name := source_name }

/-- `_parse_rss`: one Candidate per item, in order; no item aborts the loop. -/
def _parse_rss (pd : String → Option PyDateTime) (source_key source_name : String)
    (items : List RssItem) : List Candidate :=
  items.map (itemToCandidate pd source_key source_name)

/-! ## Classifier adapter (classifier.py) -/

def INDUSTRIES : List String := [
  "Building Materials Sector",
  "Media & Entertainment",
  "Paper and Pulp Manufacturing",
  "Consumer Electronics",
  "Construction/Infrastructure",
  "Battery Manufacturing",
  "Mining and Minerals",
  "Ship Building",
  "Cement",
  "Pharmaceutical",
  "MSW Management",
  "NBFC",
  "Healthcare",
  "Aluminium",
  "Paint",
  "Telecommunications",
  "Oil and Gas",
  "Renewable Energy",
  "Explosives",
  "Financial Services",
  "Automobiles",
  "Textiles",
  "Travel and Tourism",
  "Auto Ancillaries",
  "Recruitment and Human Resources Services",
  "Power/Transmission & Equipment",
  "Real Estate & Construction Software",
  "Electronic Manufacturing Services",
  "Fast Moving Consumer Goods",
  "Contract Development and Manufacturing Organisation",
  "Fashion & Apparels",
  "Aviation"]

/-- `needle.isPrefixOf hay` written out over character lists. -/
def startsWithChars : List Char → List Char → Bool
  | _, [] => true
  | [], _ :: _ => false
  | c :: t, d :: u => c = d && startsWithChars t u

/-- Substring containment over character lists (Python's `needle in hay`). -/
def charListHasSub : List Char → List Char → Bool
  | _, [] => true
  | [], _ :: _ => false
  | c :: t, d :: u => startsWithChars (c :: t) (d :: u) || charListHasSub t (d :: u)

/-- Python's substring test `k in s`. -/
def strContains (s k : String) : Bool :=
  charListHasSub s.toList k.toList

/-- The adapter returns a pair (industry label, confidence). -/
structure ClassificationResult where
  industry : String
  confidence : Rat
deriving DecidableEq, Repr

/-- What `classify_article` observes of the external provider call:
either an exception (`error`), or the pair returned by
`_parse_json_response` over the provider's text — the parsed "industry"
string, if any, and the parsed "confidence" number, if any.  A text with
no JSON payload, unloadable JSON, or an unparsable confidence makes
`_parse_json_response` return `(None, None)`, i.e. `.ok (none, none)`;
it never raises. -/
abbrev ProviderOutcome := Except Unit (Option String × Option Rat)

/-- The `except` branch of `classify_article`: the local keyword heuristic
over the lowercased concatenation of title and summary, confidence 0.3. -/
def keyword_fallback_on (lower : String) : ClassificationResult :=
  if ["cement", "concrete"].any (fun k => strContains lower k) then
    ⟨"Cement", 3/10⟩
  else if ["pharma", "drug", "vaccine"].any (fun k => strContains lower k) then
    ⟨"Pharmaceutical", 3/10⟩
  else if ["steel", "aluminium", "metal"].any (fun k => strContains lower k) then
    ⟨"Aluminium", 3/10⟩
  else if ["telecom", "5g", "4g"].any (fun k => strContains lower k) then
    ⟨"Telecommunications", 3/10⟩
  else if ["auto", "car", "vehicle", "ev "].any (fun k => strContains lower k) then
    ⟨"Automobiles", 3/10⟩
  else if ["bank", "nbfc", "lending"].any (fun k => strContains lower k) then
    ⟨"NBFC", 3/10⟩
  else
    ⟨"Uncategorized", 3/10⟩

/-- The `except` branch applies the heuristic to the lowercased
concatenation `(title + " " + (summary or "")).lower()`. -/
def keyword_fallback (title : String) (summary : Option String) : ClassificationResult :=
  keyword_fallback_on (strLower (title ++ " " ++ summary.getD ""))

/-- Lines 134-144 of classifier.py: keep an exact member of `INDUSTRIES`;
otherwise, for a truthy (non-empty) string, take the first member whose
lowercase form equals the stripped, lowercased input; otherwise
"Uncategorized". -/
def normalize_industry (industry : Option String) : String :=
  match industry with
  | none => "Uncategorized"
  | some s =>
      if INDUSTRIES.contains s then s
      else if s ≠ "" then
        match INDUSTRIES.find? (fun i => strLower i == strLower (strTrim s)) with
        | some i => i
        | none => "Uncategorized"
      else "Uncategorized"

/-- `classify_article`: on a successful provider call, normalize the
parsed industry and default a missing confidence to 0.5 (the parsed
confidence is otherwise passed through unchanged); on any exception from
the provider call, fall back to the keyword heuristic. -/
def classify_article (title : String) (summary : Option String)
    (provider : ProviderOutcome) : ClassificationResult :=
  match provider with
  | .error _ => keyword_fallback title summary
  | .ok (industry, confidence) =>
      { industry := normalize_industry industry
        confidence := confidence.getD (1/2) }

/-- Spec-side fallback heuristic, written from the spec's words: a small
ordered list of keyword groups, first match wins, over the lowercased
concatenation of title and summary.  The group list is a parameter so
that both the spec's original groups and the amended ones (with "ev "
added to the Automobiles group) can be expressed. -/
def spec_fallback_on (groups : List (List String × String)) (lower : String) : String :=
  match groups.find? (fun g => g.1.any (fun k => strContains lower k)) with
  | some g => g.2
  | none => "Uncategorized"

def spec_fallback (groups : List (List String × String)) (title : String)
    (summary : Option String) : String :=
  spec_fallback_on groups (strLower (title ++ " " ++ summary.getD ""))

/-- The keyword groups exactly as the spec (and claim C5) lists them. -/
def claimGroups : List (List String × String) := [
  (["cement", "concrete"], "Cement"),
  (["pharma", "drug", "vaccine"], "Pharmaceutical"),
  (["steel", "aluminium", "metal"], "Aluminium"),
  (["telecom", "5g", "4g"], "Telecommunications"),
  (["auto", "car", "vehicle"], "Automobiles"),
  (["bank", "nbfc", "lending"], "NBFC")]

/-- The keyword groups as the code has them: "ev " (with a trailing
space) is part of the Automobiles group. -/
def codeGroups : List (List String × String) := [
  (["cement", "concrete"], "Cement"),
  (["pharma", "drug", "vaccine"], "Pharmaceutical"),
  (["steel", "aluminium", "metal"], "Aluminium"),
  (["telecom", "5g", "4g"], "Telecommunications"),
  (["auto", "car", "vehicle", "ev "], "Automobiles"),
  (["bank", "nbfc", "lending"], "NBFC")]

/-! ## Persistence store (database.py)

The articles table becomes a list of rows; the UNIQUE constraint on url
becomes the commit raising exactly when the url is already present, which
the per-article `try/except` of `insert_articles` turns into a rollback
and skip.  Timestamps stored in the table are embedded as integer
instants.  `insertFails` is an oracle for any other per-article database
error the same `except` swallows. -/
structure StoredArticle where
  title : String
  url : String
  summary : Option String
  published_at : Option Int
  source : String
  industry : Option String
  confidence : Option Rat
  created_at : Int
deriving DecidableEq, Repr

/-- A dict as handed to `insert_articles` (candidate fields plus the
classification added by the scheduler loop). -/
structure ArticleDict where
  title : String
  url : String
  summary : Option String
  published_at : Option Int
  source : String
  industry : Option String
  confidence : Option Rat
deriving DecidableEq, Repr

/-- Row construction inside `insert_articles`: strip and truncate title
and url, `summary or None`, `created_at` defaulted to the commit time. -/
def mkArticleRow (now : Int) (art : ArticleDict) : StoredArticle :=
  { title := strTake (strTrim art.title) 1024
    url := strTake (strTrim art.url) 2048
    summary :=
      match art.summary with
      | some s => if s = "" then none else some s
      | none => none
    published_at := art.published_at
    source := art.source
    industry := art.industry
    confidence := art.confidence
    created_at := now }

/-- `insert_articles`: attempt one insert-and-commit per dict; a failed
commit (duplicate url, or any other error signalled by the `fails`
oracle) is rolled back and skipped; return the store and the number
actually inserted. -/
def insert_articles (now : Int) (db : List StoredArticle) (fails : List Bool) :
    List ArticleDict → List StoredArticle × Nat
  | [] => (db, 0)
  | art :: rest =>
      if fails.headD false || db.any (fun r => r.url == (mkArticleRow now art).url) then
        insert_articles now db fails.tail rest
      else
        Prod.map id (fun n => n + 1)
          (insert_articles now (db ++ [mkArticleRow now art]) fails.tail rest)

/-- Number of stored rows carrying a given url. -/
def countUrl (db : List StoredArticle) (u : String) : Nat :=
  (db.filter fun r => r.url == u).length

/-- The store invariant: url is unique across all stored articles. -/
def urlsUnique (db : List StoredArticle) : Prop :=
  (db.map fun r => r.url).Nodup

/-- The ORDER BY of `fetch_articles` —
`published_at DESC NULLS LAST, created_at DESC` — as a Boolean total
preorder: `keyLE a b` holds when `a` may come no later than `b`. -/
def keyLE (a b : StoredArticle) : Bool :=
  match a.published_at, b.published_at with
  | some x, some y => decide (y < x) || (decide (x = y) && decide (b.created_at ≤ a.created_at))
  | some _, none => true
  | none, some _ => false
  | none, none => decide (b.created_at ≤ a.created_at)

def keyOrder (a b : StoredArticle) : Prop := keyLE a b = true

instance : DecidableRel keyOrder := fun a b => instDecidableEqBool (keyLE a b) true

/-- The WHERE clause of `fetch_articles`: `if industry:` — a filter is
applied only for a truthy (non-None, non-empty) industry string. -/
def filter_by_industry (industry : Option String) (db : List StoredArticle) :
    List StoredArticle :=
  match industry with
  | some s => if s ≠ "" then db.filter (fun a => a.industry == some s) else db
  | none => db

/-- `fetch_articles`: filter, order by the sort key, then OFFSET and LIMIT. -/
def fetch_articles (db : List StoredArticle) (industry : Option String)
    (lim off : Nat) : List StoredArticle :=
  ((List.insertionSort keyOrder (filter_by_industry industry db)).drop off).take lim

/-- Spec-side ordering relation, from the spec's words: published_at
descending with nulls last, ties broken by created_at descending. -/
def claimOrder (a b : StoredArticle) : Prop :=
  match a.published_at, b.published_at with
  | some x, some y => x > y ∨ (x = y ∧ a.created_at ≥ b.created_at)
  | some _, none => True
  | none, some _ => False
  | none, none => a.created_at ≥ b.created_at

/-! ## Curation orchestrator (scheduler.py `_run_curation_once`)

Every fallible inner step is an explicit input: the outcome of
`fetch_latest_articles` (its own exceptions are caught and turned into an
empty list), one `(raised, provider outcome)` pair per article for the
classification loop, the per-article insert failures, and whether the
`insert_articles` / `upsert_meta` block raised after the inserts (in which
case the reported `inserted` is reset to 0). -/
structure Counts where
  fetched : Nat
  inserted : Nat
deriving DecidableEq, Repr

/-- A candidate article as returned by the scraper to the scheduler. -/
structure FetchedArticle where
  title : String
  url : String
  summary : Option String
  published_at : Option Int
  source : String
deriving DecidableEq, Repr

/-- Attaching a classification to a fetched article
(`a["industry"] = ...; a["confidence"] = ...`). -/
def withClassification (a : FetchedArticle) (c : ClassificationResult) : ArticleDict :=
  { title := a.title, url := a.url, summary := a.summary
    published_at := a.published_at, source := a.source
    industry := some c.industry, confidence := some c.confidence }

/-- The classification loop: per article, a `try` that drops the article
from `classified` if `classify_article` raised (first oracle component),
and otherwise appends it with the classification attached. -/
def classifyLoop : List FetchedArticle → List (Bool × ProviderOutcome) → List ArticleDict
  | [], _ => []
  | a :: rest, outs =>
      if (outs.headD (false, Except.error ())).1 then classifyLoop rest outs.tail
      else
        withClassification a
            (classify_article a.title a.summary (outs.headD (false, Except.error ())).2) ::
          classifyLoop rest outs.tail

/-- All failure points of one orchestrator run, as oracle inputs. -/
structure RunOracle where
  fetchResult : Except Unit (List FetchedArticle)
  classifyOutcomes : List (Bool × ProviderOutcome)
  insertFails : List Bool
  watermarkError : Bool
  dbNow : Int

/-- The `try/except` around `fetch_latest_articles`: an exception is
downgraded to the empty article list. -/
def fetched_articles (orc : RunOracle) : List FetchedArticle :=
  match orc.fetchResult with
  | .ok arts => arts
  | .error _ => []

/-- `_run_curation_once`: fetch (errors downgraded to no articles),
classify each survivor, insert the batch, record the watermark — an
exception in the insert/watermark block resets the reported count to 0 —
and return the aggregate counts together with the final store. -/
def classified_dicts (orc : RunOracle) : List ArticleDict :=
  classifyLoop (fetched_articles orc) orc.classifyOutcomes

def _run_curation_once (db : List StoredArticle) (orc : RunOracle) :
    Counts × List StoredArticle :=
  (⟨(fetched_articles orc).length,
    if orc.watermarkError then 0
    else (insert_articles orc.dbNow db orc.insertFails (classified_dicts orc)).2⟩,
   (insert_articles orc.dbNow db orc.insertFails (classified_dicts orc)).1)

/-! ## Reentrancy guard (main.py `curation_workflow`)

The guard is the module-global `curation_in_progress` flag.  The Python
statements compile to separate interpreter steps, so the flag read in
`if curation_in_progress:` and the later `curation_in_progress = True`
are distinct atomic actions between which another thread (the scheduler
job or a second HTTP trigger) can be interleaved.  Program counters:
0 = about to read the flag, 1 = about to set it, 2 = about to execute the
curation pass, 3 = about to clear the flag in `finally`, 4 = returned. -/
structure TState where
  pc : Nat
  skipped : Bool
  ran : Bool
deriving DecidableEq, Repr

def initThread : TState := ⟨0, false, false⟩

/-- One interpreter step of a thread running `curation_workflow`. -/
def stepThread (flag : Bool) (t : TState) : Bool × TState :=
  match t.pc with
  | 0 => if flag then (flag, { t with pc := 4, skipped := true })
         else (flag, { t with pc := 1 })
  | 1 => (true, { t with pc := 2 })
  | 2 => (flag, { t with pc := 3, ran := true })
  | 3 => (false, { t with pc := 4 })
  | _ => (flag, t)

/-- Two threads sharing the one `curation_in_progress` flag. -/
structure SysState where
  flag : Bool
  t1 : TState
  t2 : TState
deriving DecidableEq, Repr

def initSys : SysState := ⟨false, initThread, initThread⟩

/-- Let the scheduled thread (tid = false) or the trigger thread
(tid = true) take one step. -/
def stepSys (s : SysState) (tid : Bool) : SysState :=
  if tid then
    let p := stepThread s.flag s.t2
    { s with flag := p.1, t2 := p.2 }
  else
    let p := stepThread s.flag s.t1
    { s with flag := p.1, t1 := p.2 }

/-- Run a concrete interleaving of the two threads. -/
def runSched (s : SysState) : List Bool → SysState
  | [] => s
  | tid :: rest => runSched (stepSys s tid) rest

/-! ## Sample values used by the witnesses -/

def sampleDict : ArticleDict :=
  ⟨"t", "u", none, none, "src", some "Cement", some (3/10)⟩

def sampleRow : StoredArticle :=
  ⟨"t", "u", none, none, "src", some "Cement", some (3/10), 0⟩

def sampleRow2 : StoredArticle :=
  ⟨"t2", "u2", none, some 10, "src", some "Paint", some (1/2), 1⟩

def sampleRow3 : StoredArticle :=
  ⟨"t3", "u3", none, some 20, "src", none, none, 2⟩

def sampleDb : List StoredArticle := [sampleRow, sampleRow2, sampleRow3]

/-- An orchestrator run in which the fetch step and the insert/watermark
block both raise. -/
def sampleFailOracle : RunOracle := ⟨Except.error (), [], [], true, 0⟩

/-- Confidence side condition for C3: the provider's parsed confidence,
when present, lies in the unit interval. -/
def providerConfidenceInRange (prov : ProviderOutcome) : Prop :=
  match prov with
  | .ok (_, some c) => 0 ≤ c ∧ c ≤ 1
  | _ => True

/-! ## Helper lemmas -/

theorem insert_articles_length (now : Int) :
    ∀ (arts : List ArticleDict) (db : List StoredArticle) (fails : List Bool),
      (insert_articles now db fails arts).1.length =
        db.length + (insert_articles now db fails arts).2
  | [], _, _ => by simp [insert_articles]
  | art :: rest, db, fails => by
      unfold insert_articles
      split
      · exact insert_articles_length now rest db fails.tail
      · have ih := insert_articles_length now rest (db ++ [mkArticleRow now art]) fails.tail
        simp only [Prod.map_fst, Prod.map_snd, id_eq, List.length_append, List.length_cons,
          List.length_nil] at ih ⊢
        omega

theorem insert_articles_count_le (now : Int) :
    ∀ (arts : List ArticleDict) (db : List StoredArticle) (fails : List Bool),
      (insert_articles now db fails arts).2 ≤ arts.length
  | [], _, _ => by simp [insert_articles]
  | art :: rest, db, fails => by
      unfold insert_articles
      split
      · exact Nat.le_trans (insert_articles_count_le now rest db fails.tail)
          (Nat.le_succ _)
      · have ih := insert_articles_count_le now rest (db ++ [mkArticleRow now art]) fails.tail
        simp only [Prod.map_snd, List.length_cons]
        omega

theorem countUrl_append (db db' : List StoredArticle) (u : String) :
    countUrl (db ++ db') u = countUrl db u + countUrl db' u := by
  simp [countUrl, List.filter_append]

theorem insert_articles_countUrl (now : Int) :
    ∀ (arts : List ArticleDict) (db : List StoredArticle) (fails : List Bool) (u : String),
      u ∈ db.map (fun r => r.url) →
      countUrl (insert_articles now db fails arts).1 u = countUrl db u
  | [], _, _, _, _ => by simp [insert_articles]
  | art :: rest, db, fails, u, hu => by
      unfold insert_articles
      split
      · exact insert_articles_countUrl now rest db fails.tail u hu
      · next hcond =>
        have hnotin : ∀ r ∈ db, ¬ (r.url == (mkArticleRow now art).url) = true := by
          intro r hr
          simp only [Bool.or_eq_true, List.any_eq_true, not_or] at hcond
          exact fun hc => hcond.2 ⟨r, hr, hc⟩
        have hne : (mkArticleRow now art).url ≠ u := by
          rcases List.mem_map.mp hu with ⟨r, hr, rfl⟩
          intro heq
          exact hnotin r hr (by simp [heq])
        have hu' : u ∈ (db ++ [mkArticleRow now art]).map (fun r => r.url) := by
          simp only [List.map_append, List.mem_append]
          exact Or.inl hu
        have ih := insert_articles_countUrl now rest (db ++ [mkArticleRow now art])
          fails.tail u hu'
        simp only [Prod.map_fst, id_eq]
        rw [ih, countUrl_append]
        simp [countUrl, hne]

theorem insert_articles_nodup (now : Int) :
    ∀ (arts : List ArticleDict) (db : List StoredArticle) (fails : List Bool),
      urlsUnique db → urlsUnique (insert_articles now db fails arts).1
  | [], _, _, h => by simpa [insert_articles] using h
  | art :: rest, db, fails, h => by
      unfold insert_articles
      split
      · exact insert_articles_nodup now rest db fails.tail h
      · next hcond =>
        simp only [Prod.map_fst, id_eq]
        apply insert_articles_nodup now rest (db ++ [mkArticleRow now art]) fails.tail
        simp only [Bool.or_eq_true, List.any_eq_true, not_or] at hcond
        unfold urlsUnique at h ⊢
        simp only [List.map_append, List.map_cons, List.map_nil]
        rw [List.nodup_append]
        refine ⟨h, List.nodup_singleton _, ?_⟩
        intro x hx hx'
        simp only [List.mem_singleton] at hx'
        rcases List.mem_map.mp hx with ⟨r, hr, rfl⟩
        exact hcond.2 ⟨r, hr, by simp [hx']⟩

theorem classifyLoop_length_le :
    ∀ (arts : List FetchedArticle) (outs : List (Bool × ProviderOutcome)),
      (classifyLoop arts outs).length ≤ arts.length
  | [], _ => by simp [classifyLoop]
  | a :: rest, outs => by
      unfold classifyLoop
      split
      · exact Nat.le_trans (classifyLoop_length_le rest outs.tail) (Nat.le_succ _)
      · simpa using classifyLoop_length_le rest outs.tail

theorem keyword_fallback_confidence (title : String) (summary : Option String) :
    (keyword_fallback title summary).confidence = 3/10 := by
  unfold keyword_fallback keyword_fallback_on
  split_ifs <;> rfl

theorem normalize_industry_mem (o : Option String) :
    normalize_industry o ∈ "Uncategorized" :: INDUSTRIES := by
  unfold normalize_industry
  cases o with
  | none => simp
  | some s =>
      dsimp only
      split_ifs with h1 h2
      · right
        exact List.mem_of_elem_eq_true h1
      · split
        · next i hi =>
            right
            exact List.mem_of_find?_eq_some hi
        · simp
      · simp

theorem industries_find_self : ∀ s ∈ INDUSTRIES,
    INDUSTRIES.find? (fun i => strLower i == strLower (strTrim s)) = some s := by
  decide

theorem keyword_fallback_industry_mem (title : String) (summary : Option String) :
    (keyword_fallback title summary).industry ∈ "Uncategorized" :: INDUSTRIES := by
  unfold keyword_fallback keyword_fallback_on
  split_ifs <;> decide

theorem keyword_fallback_matches_groups (lower : String) :
    keyword_fallback_on lower = ⟨spec_fallback_on codeGroups lower, 3/10⟩ := by
  unfold keyword_fallback_on spec_fallback_on codeGroups
  simp only [List.find?, List.any_cons, List.any_nil, Bool.or_false]
  split_ifs <;> simp_all only [Bool.not_eq_true]

theorem keyLE_total (a b : StoredArticle) : keyLE a b = true ∨ keyLE b a = true := by
  unfold keyLE
  rcases hpa : a.published_at with _ | x <;> rcases hpb : b.published_at with _ | y <;>
    simp <;> omega

theorem keyLE_trans (a b c : StoredArticle) (hab : keyLE a b = true)
    (hbc : keyLE b c = true) : keyLE a c = true := by
  unfold keyLE at hab hbc ⊢
  rcases hpa : a.published_at with _ | x <;> rcases hpb : b.published_at with _ | y <;>
    rcases hpc : c.published_at with _ | z <;>
      simp_all <;> omega

instance : IsTotal StoredArticle keyOrder := ⟨keyLE_total⟩

instance : IsTrans StoredArticle keyOrder := ⟨keyLE_trans⟩

theorem keyOrder_imp_claimOrder (a b : StoredArticle) (h : keyOrder a b) :
    claimOrder a b := by
  unfold keyOrder keyLE at h
  unfold claimOrder
  rcases hpa : a.published_at with _ | x <;> rcases hpb : b.published_at with _ | y <;>
    simp_all <;> omega

/-! ## Claim theorems -/

/-- C1: over any store whose urls are unique, any batch of offered
Classified Articles (with any per-row failure pattern) keeps url unique,
keeps the stored row count of every url already present at exactly 1 no
matter how many times that url is offered again, and returns an inserted
count equal to the number of rows actually added — duplicates are
silently skipped, never counted, and `insert_articles` is a total
function, so no error surfaces to the caller. -/
theorem insert_duplicate_url_is_noop (now : Int) (db : List StoredArticle)
    (fails : List Bool) (arts : List ArticleDict) (h : urlsUnique db) :
    urlsUnique (insert_articles now db fails arts).1 ∧
    (∀ u, countUrl db u = 1 → countUrl (insert_articles now db fails arts).1 u = 1) ∧
    (insert_articles now db fails arts).1.length =
      db.length + (insert_articles now db fails arts).2 := by
  refine ⟨insert_articles_nodup now arts db fails h, ?_,
    insert_articles_length now arts db fails⟩
  intro u hu
  have hne : (db.filter fun r => r.url == u) ≠ [] := by
    intro he
    simp only [countUrl, he, List.length_nil] at hu
    omega
  obtain ⟨r, hr⟩ := List.exists_mem_of_ne_nil _ hne
  have hr' := List.mem_filter.mp hr
  have hmem : u ∈ db.map (fun r => r.url) :=
    List.mem_map.mpr ⟨r, hr'.1, by simpa using hr'.2⟩
  rw [insert_articles_countUrl now arts db fails u hmem]
  exact hu

/-- Witness for C1: a store holding url "u" once, offered the same url
twice more; the row count for "u" stays 1 and nothing is counted. -/
theorem insert_duplicate_url_is_noop_witness :
    urlsUnique (insert_articles 0 [sampleRow] [] [sampleDict, sampleDict]).1 ∧
    countUrl (insert_articles 0 [sampleRow] [] [sampleDict, sampleDict]).1 "u" = 1 ∧
    (insert_articles 0 [sampleRow] [] [sampleDict, sampleDict]).1.length =
      [sampleRow].length + (insert_articles 0 [sampleRow] [] [sampleDict, sampleDict]).2 := by
  have h := insert_duplicate_url_is_noop 0 [sampleRow] [] [sampleDict, sampleDict]
    (by unfold urlsUnique; decide)
  have hc : countUrl [sampleRow] "u" = 1 := by unfold countUrl sampleRow; decide
  refine ⟨h.1, ?_, h.2.2⟩
  exact h.2.1 "u" hc

/-- C2 (code bug): the reentrancy guard of `curation_workflow` reads
`curation_in_progress` and sets it in two separate interpreter steps, so
under the interleaving check·check·set·set·run·run·clear·clear both
concurrent trigger calls execute a full curation pass and neither returns
the "skipped" outcome — two passes do run against the same store,
contradicting the claim that exactly one executes. -/
theorem reentrancy_guard_race :
    (runSched initSys [false, true, false, true, false, true, false, true]).t1.ran = true ∧
    (runSched initSys [false, true, false, true, false, true, false, true]).t2.ran = true ∧
    (runSched initSys [false, true, false, true, false, true, false, true]).t1.skipped
      = false ∧
    (runSched initSys [false, true, false, true, false, true, false, true]).t2.skipped
      = false := by
  decide

/-- C9: the orchestrator is a total function of the failure oracle — no
inner exception propagates — and always returns the aggregate counts:
fetched is the number of candidates obtained, which is the reduced result
0 when the fetch step raised, and a failure in the insert/watermark block
is downgraded to the reduced report inserted = 0 rather than an error. -/
theorem run_curation_returns_counts (db : List StoredArticle) (orc : RunOracle) :
    (_run_curation_once db orc).1.fetched = (fetched_articles orc).length ∧
    (orc.fetchResult = Except.error () → (_run_curation_once db orc).1.fetched = 0) ∧
    (orc.watermarkError = true → (_run_curation_once db orc).1.inserted = 0) := by
  refine ⟨rfl, ?_, ?_⟩
  · intro hf
    simp [_run_curation_once, fetched_articles, hf]
  · intro hw
    simp [_run_curation_once, hw]

/-- Witness for C9: a run whose fetch step and insert/watermark block
both raise still returns counts, with fetched = 0 and inserted = 0. -/
theorem run_curation_returns_counts_witness :
    (_run_curation_once [] sampleFailOracle).1.fetched = 0 ∧
    (_run_curation_once [] sampleFailOracle).1.inserted = 0 :=
  ⟨(run_curation_returns_counts [] sampleFailOracle).2.1 rfl,
   (run_curation_returns_counts [] sampleFailOracle).2.2 rfl⟩

/-- C3 counterexample: when the classification service replies with the
valid label "Cement" but confidence 3/2, `classify_article` passes the
confidence through unclamped, so the returned confidence is not in
[0,1] — the claim "confidence lies in the interval [0,1]" fails. -/
theorem confidence_not_clamped :
    (classify_article "t" none (Except.ok (some "Cement", some (3/2)))).confidence = 3/2 ∧
    ¬ ((classify_article "t" none (Except.ok (some "Cement", some (3/2)))).confidence ≤ 1) := by
  refine ⟨rfl, ?_⟩
  show ¬ ((3 : Rat)/2 ≤ 1)
  norm_num

/-- C3 (amended): for every input and every provider outcome — any
exception and any parsed reply, out-of-range confidences included — the
returned industry is a member of the closed Industry set together with
"Uncategorized"; every parsed provider confidence is passed through
unchanged (no clamping); and the returned confidence lies in [0,1]
whenever the parsed provider confidence is absent (default 0.5), the call
failed (fallback 0.3), or that parsed confidence itself lies in [0,1]. -/
theorem classifier_output_in_range (title : String) (summary : Option String)
    (prov : ProviderOutcome) :
    (classify_article title summary prov).industry ∈ "Uncategorized" :: INDUSTRIES ∧
    (∀ io c, prov = Except.ok (io, some c) →
      (classify_article title summary prov).confidence = c) ∧
    (providerConfidenceInRange prov →
      0 ≤ (classify_article title summary prov).confidence ∧
      (classify_article title summary prov).confidence ≤ 1) := by
  refine ⟨?_, ?_, ?_⟩
  · rcases prov with e | ⟨io, co⟩
    · exact keyword_fallback_industry_mem title summary
    · exact normalize_industry_mem io
  · rintro io c rfl
    rfl
  · intro h
    rcases prov with e | ⟨io, co⟩
    · have hc : (classify_article title summary (Except.error e)).confidence = 3/10 :=
        keyword_fallback_confidence title summary
      exact ⟨by rw [hc]; norm_num, by rw [hc]; norm_num⟩
    · cases co with
      | none =>
          refine ⟨?_, ?_⟩
          · show (0 : Rat) ≤ 1/2
            norm_num
          · show (1 : Rat)/2 ≤ 1
            norm_num
      | some c =>
          exact ⟨h.1, h.2⟩

/-- Witness for C3 (amended) at a provider reply with an unknown label
and an in-range confidence 9/10: membership, exact pass-through and the
range conclusion, with the range hypothesis discharged concretely. -/
theorem classifier_output_in_range_witness :
    (classify_article "t" none (Except.ok (some "x", some (9/10)))).industry ∈
        "Uncategorized" :: INDUSTRIES ∧
    (classify_article "t" none (Except.ok (some "x", some (9/10)))).confidence = 9/10 ∧
    0 ≤ (classify_article "t" none (Except.ok (some "x", some (9/10)))).confidence ∧
    (classify_article "t" none (Except.ok (some "x", some (9/10)))).confidence ≤ 1 := by
  have h := classifier_output_in_range "t" none (Except.ok (some "x", some (9/10)))
  exact ⟨h.1, h.2.1 (some "x") (9/10) rfl, h.2.2 ⟨by norm_num, by norm_num⟩⟩

/-- C4 counterexample: `_within_last_hours` samples `now` inside each
call, not once per run start.  With the boundary clocks 86400 and 86401
(window 24 h, article published at instant 0) the run keeps the first
copy of an article and drops the identical second copy — an outcome no
single run-start `now` can produce, refuting the claim's "now is
evaluated once per run start". -/
theorem recency_now_per_call_counterexample :
    filter_with_clocks 24 [(86400, some ⟨0, some 0⟩), (86401, some ⟨0, some 0⟩)] =
      [some ⟨0, some 0⟩] ∧
    ¬ ∃ now0 : Int,
        spec_recency_filter now0 24 [some ⟨0, some 0⟩, some ⟨0, some 0⟩] =
          filter_with_clocks 24 [(86400, some ⟨0, some 0⟩), (86401, some ⟨0, some 0⟩)] := by
  have hcode : filter_with_clocks 24 [(86400, some ⟨0, some 0⟩), (86401, some ⟨0, some 0⟩)] =
      [some ⟨0, some 0⟩] := by decide
  refine ⟨hcode, ?_⟩
  rintro ⟨n, hn⟩
  rw [hcode] at hn
  unfold spec_recency_filter at hn
  simp only [List.filter_cons, List.filter_nil] at hn
  split_ifs at hn <;> simp_all

/-- C4 (amended): the Recency Filter retains an article iff published_at
is present and (now − published_at) ≤ window with an inclusive boundary,
where now is the clock sample taken at that article's own filter call
(not once per run start); an absent published_at is always rejected, and
a naive timestamp is compared as if it were in UTC. -/
theorem within_last_hours_contract (now hours : Int) (a : Option PyDateTime) :
    (within_last_hours now a hours = true ↔
      ∃ d, a = some d ∧ now - d.toUtcEpoch ≤ hours * 3600) ∧
    within_last_hours now none hours = false ∧
    (∀ w : Int, within_last_hours now (some ⟨w, none⟩) hours =
      within_last_hours now (some ⟨w, some 0⟩) hours) := by
  refine ⟨?_, rfl, ?_⟩
  · cases a with
    | none => simp [within_last_hours]
    | some d => simp [within_last_hours]
  · intro w
    simp [within_last_hours, PyDateTime.toUtcEpoch]

/-- Witness for C4 (amended): the inclusive boundary — an article exactly
window-old at the sampled clock is retained. -/
theorem within_last_hours_contract_witness :
    within_last_hours 86400 (some ⟨0, some 0⟩) 24 = true :=
  (within_last_hours_contract 86400 24 (some ⟨0, some 0⟩)).1.mpr
    ⟨⟨0, some 0⟩, rfl, by decide⟩

/-- C5 counterexample: (i) a successful external call whose output fails
to parse — parsed `(None, None)` — yields ("Uncategorized", 0.5) through
the normalization path, not the claim's keyword fallback, which on
"cement prices rise" would give ("Cement", 0.3); (ii) on an exception the
code's fallback classifies "ev stocks" as "Automobiles" via the extra
"ev " keyword, while the claim's group list yields "Uncategorized". -/
theorem fallback_policy_counterexample :
    classify_article "cement prices rise" none (Except.ok (none, none)) =
      ⟨"Uncategorized", 1/2⟩ ∧
    spec_fallback claimGroups "cement prices rise" none = "Cement" ∧
    (classify_article "ev stocks" none (Except.error ())).industry = "Automobiles" ∧
    (classify_article "ev stocks" none (Except.error ())).confidence = 3/10 ∧
    spec_fallback claimGroups "ev stocks" none = "Uncategorized" := by
  exact ⟨rfl, by decide, by decide, keyword_fallback_confidence "ev stocks" none, by decide⟩

/-- C5 (amended): whenever the external call raises, the adapter returns,
without raising outward, exactly the first-match keyword fallback over
the lowercased concatenation of title and summary — the claim's ordered
groups with "ev " added to the Automobiles group — at confidence 0.3;
when the call succeeds but its output fails to parse, the adapter instead
returns ("Uncategorized", 0.5); being a total function, the adapter
always returns a valid (industry, confidence) pair. -/
theorem classify_error_uses_fallback (title : String) (summary : Option String) :
    classify_article title summary (Except.error ()) =
      ⟨spec_fallback codeGroups title summary, 3/10⟩ ∧
    classify_article title summary (Except.ok (none, none)) = ⟨"Uncategorized", 1/2⟩ :=
  ⟨keyword_fallback_matches_groups (strLower (title ++ " " ++ summary.getD "")), rfl⟩

/-- C6: the returned industry string is normalized against the closed set
case-insensitively after stripping (the result is the first member whose
lowercase form matches the stripped lowercased reply, else
"Uncategorized"); missing confidence defaults to 0.5; and the concrete
reply "cement " maps to the exact label "Cement". -/
theorem classify_normalizes_case_insensitively (t : String) (sum : Option String)
    (s : String) (c : Option Rat) :
    (classify_article t sum (Except.ok (some s, c))).industry =
      (match INDUSTRIES.find? (fun i => strLower i == strLower (strTrim s)) with
       | some i => i
       | none => "Uncategorized") ∧
    (classify_article t sum (Except.ok (some s, none))).confidence = 1/2 ∧
    (classify_article t sum (Except.ok (some "cement ", c))).industry = "Cement" := by
  refine ⟨?_, rfl, ?_⟩
  · show normalize_industry (some s) = _
    unfold normalize_industry
    dsimp only
    split_ifs with h1 h2
    · rw [industries_find_self s (List.mem_of_elem_eq_true h1)]
    · rfl
    · push_neg at h2
      subst h2
      decide
  · show normalize_industry (some "cement ") = "Cement"
    decide

/-- C7: the feed parser is total — it yields exactly one Candidate per
item, a document in which no items are found (the malformed or empty
case) yields the empty sequence, and an item whose date string fails to
parse yields a Candidate with published_at absent instead of an error. -/
theorem parse_rss_total (pd : String → Option PyDateTime) (k n : String)
    (items : List RssItem) (it : RssItem)
    (h : ∀ d, it.pubDateText = some d → pd d = none) :
    (_parse_rss pd k n items).length = items.length ∧
    _parse_rss pd k n [] = [] ∧
    (itemToCandidate pd k n it).published_at = none := by
  refine ⟨by simp [_parse_rss], rfl, ?_⟩
  cases hp : it.pubDateText with
  | none => simp [itemToCandidate, hp]
  | some d => simp [itemToCandidate, hp, h d hp]

/-- Witness for C7: a one-item feed whose date string never parses. -/
theorem parse_rss_total_witness :
    (_parse_rss (fun _ => none) "k" "n"
        [⟨some "t", some "l", some "<p>x</p>", some "bad date"⟩]).length = 1 ∧
    _parse_rss (fun _ => none) "k" "n" [] = [] ∧
    (itemToCandidate (fun _ => none) "k" "n"
        ⟨some "t", some "l", some "<p>x</p>", some "bad date"⟩).published_at = none :=
  parse_rss_total (fun _ => none) "k" "n"
    [⟨some "t", some "l", some "<p>x</p>", some "bad date"⟩]
    ⟨some "t", some "l", some "<p>x</p>", some "bad date"⟩ (fun _ _ => rfl)

/-- C8: for every store, optional industry filter (a supplied industry
being a non-empty label), limit and offset, `fetch_articles` returns the
sorted permutation of the industry-restricted store — ordered by
published_at descending with null published_at last, ties broken by
created_at descending — with offset and limit applied to that order; the
restriction keeps exactly the stored articles of the given industry. -/
theorem fetch_articles_ordered (db : List StoredArticle) (ind : Option String)
    (lim off : Nat) (hind : ind ≠ some "") :
    (List.insertionSort keyOrder (filter_by_industry ind db)).Perm
        (filter_by_industry ind db) ∧
    List.Pairwise claimOrder (List.insertionSort keyOrder (filter_by_industry ind db)) ∧
    (∀ a, a ∈ filter_by_industry ind db ↔
      a ∈ db ∧ ∀ s, ind = some s → a.industry = some s) ∧
    fetch_articles db ind lim off =
      ((List.insertionSort keyOrder (filter_by_industry ind db)).drop off).take lim := by
  refine ⟨List.perm_insertionSort keyOrder _, ?_, ?_, rfl⟩
  · exact (List.sorted_insertionSort keyOrder _).imp
      (fun h => keyOrder_imp_claimOrder _ _ h)
  · intro a
    unfold filter_by_industry
    cases ind with
    | none => simp
    | some s =>
        have hs : s ≠ "" := fun h => hind (by rw [h])
        dsimp only
        rw [if_pos hs]
        simp only [List.mem_filter, beq_iff_eq]
        constructor
        · rintro ⟨h1, h2⟩
          exact ⟨h1, fun s' hs' => by cases hs'; exact h2⟩
        · rintro ⟨h1, h2⟩
          exact ⟨h1, h2 s rfl⟩

/-- Witness for C8 over a concrete three-row store with no industry
filter. -/
theorem fetch_articles_ordered_witness :
    (List.insertionSort keyOrder (filter_by_industry none sampleDb)).Perm
        (filter_by_industry none sampleDb) ∧
    List.Pairwise claimOrder (List.insertionSort keyOrder (filter_by_industry none sampleDb)) ∧
    sampleRow ∈ filter_by_industry none sampleDb ∧
    fetch_articles sampleDb none 5 0 =
      ((List.insertionSort keyOrder (filter_by_industry none sampleDb)).drop 0).take 5 := by
  have h := fetch_articles_ordered sampleDb none 5 0 (by simp)
  exact ⟨h.1, h.2.1, (h.2.2.1 sampleRow).mpr ⟨by simp [sampleDb], fun s hs => by cases hs⟩,
    h.2.2.2⟩

/-- C10: every orchestrator run reports 0 ≤ inserted ≤ fetched — the
classified batch is never longer than the fetched candidate list, and the
store's insert counts at most one per offered article. -/
theorem inserted_le_fetched (db : List StoredArticle) (orc : RunOracle) :
    (_run_curation_once db orc).1.inserted ≤ (_run_curation_once db orc).1.fetched := by
  unfold _run_curation_once
  by_cases hw : orc.watermarkError
  · simp [hw]
  · simp only [hw, Bool.false_eq_true, if_false]
    exact Nat.le_trans
      (Nat.le_trans (insert_articles_count_le orc.dbNow (classified_dicts orc) db orc.insertFails)
        (by simpa [classified_dicts] using
          classifyLoop_length_le (fetched_articles orc) orc.classifyOutcomes))
      (Nat.le_refl _)

end NewsAgent
